import Mathlib

/-!
Shallow embedding of the LinAlg core value types (`src/app/domain/vector/vector.ts`
and `src/app/domain/matrix/matrix.ts`).

Scalars are modelled as rationals (`ℚ`): the source works on JavaScript numbers
and the claims speak of real values; the operations use only `+`, `-`, `*`, so
exact rational arithmetic is a faithful executable proxy.

Fallible code (the TypeScript methods that `throw`) is modelled with
`Except Err`.  The error kinds follow the spec's taxonomy (§7), plus
`typeError` for the JavaScript `TypeError` raised by reading a property of
`undefined` (e.g. `this._matrix[0].length` on a zero-row matrix).
-/

namespace LinAlg

/-- Error kinds of the spec's §7 taxonomy.  `typeError` models the JavaScript
`TypeError` thrown when the code reads `.length` of an `undefined` row. -/
inductive Err where
  | indexOutOfBounds
  | dimensionMismatch
  | invalidMatrixShape
  | notThreeDimensional
  | typeError
deriving DecidableEq

/-- `Vector` from `vector.ts`: an immutable wrapper around a list of scalars. -/
structure Vector where
  elems : List ℚ
deriving DecidableEq

/-- `get dimension()` (vector.ts line 47): the length of the underlying array. -/
def Vector.dimension (v : Vector) : Nat := v.elems.length

/-- Pure element accessor used only in specification statements
(`v.elems[i]`, defaulting to 0 out of range). -/
def Vector.entry (v : Vector) (i : Nat) : ℚ := v.elems.getD i 0

/-- `Vector.checkBounds` (vector.ts lines 147-151): throws `IndexOutOfBounds`
when `index >= dimension || index < 0`.  Indices are modelled as `Nat`, so the
`index < 0` branch is vacuous here; all call sites pass loop counters that are
nonnegative in the source as well. -/
def Vector.checkBounds (v : Vector) (i : Nat) : Except Err Unit :=
  if i ≥ v.dimension then .error .indexOutOfBounds else .ok ()

/-- `Vector.getAt` (vector.ts lines 59-63): bounds check, then array read. -/
def Vector.getAt (v : Vector) (i : Nat) : Except Err ℚ := do
  v.checkBounds i
  pure (v.elems.getD i 0)

/-- Index-aware traversal used to model `Array.prototype.map` with a callback
that may throw (as in `Vector.add`, where the callback calls `other.getAt(i)`).
`s` is the index of the first element of the remaining list. -/
def mapIdxGo (f : Nat → ℚ → Except Err ℚ) : Nat → List ℚ → Except Err (List ℚ)
  | _, [] => .ok []
  | s, x :: xs => do
    let y ← f s x
    let ys ← mapIdxGo f (s + 1) xs
    pure (y :: ys)

/-- `Vector.add` (vector.ts lines 100-102):
`this.map((x, i) => x + vector.getAt(i))`.  Note the source performs no
dimension check here (unlike `scalarProduct`); the only failure comes from
`vector.getAt(i)` when `i` exceeds the other vector's bounds. -/
def Vector.add (v w : Vector) : Except Err Vector := do
  let elems ← mapIdxGo (fun i x => do
    let y ← w.getAt i
    pure (x + y)) 0 v.elems
  pure ⟨elems⟩

/-- `Vector.assertVectorProductDefined` (vector.ts lines 159-163):
throws unless `vector.dimension == 3 && this.dimension == 3`. -/
def Vector.assertVectorProductDefined (a b : Vector) : Except Err Unit :=
  if b.dimension ≠ 3 ∨ a.dimension ≠ 3 then .error .notThreeDimensional else .ok ()

/-- `Vector.vectorProduct` (vector.ts lines 137-145).  The formula is the
source's literal one (the middle component is not negated):
`x = a1*b2 - a2*b1; y = a0*b2 - a2*b0; z = a0*b1 - a1*b0`. -/
def Vector.vectorProduct (a b : Vector) : Except Err Vector := do
  a.assertVectorProductDefined b
  let a1 ← a.getAt 1
  let b2 ← b.getAt 2
  let a2 ← a.getAt 2
  let b1 ← b.getAt 1
  let a0 ← a.getAt 0
  let b0 ← b.getAt 0
  pure ⟨[a1 * b2 - a2 * b1, a0 * b2 - a2 * b0, a0 * b1 - a1 * b0]⟩

/-- `Matrix` from `matrix.ts`: an immutable wrapper around a list of rows. -/
structure Matrix where
  rows : List (List ℚ)
deriving DecidableEq

/-- `get n()` (matrix.ts lines 98-100): the number of rows. -/
def Matrix.n (A : Matrix) : Nat := A.rows.length

/-- The column count read off the first row, as a total function (length of the
first row, 0 when there is none).  Used in specification statements and as the
value produced by the fallible getter `Matrix.m` on nonempty matrices. -/
def Matrix.mval (A : Matrix) : Nat := (A.rows.headD []).length

/-- `get m()` (matrix.ts lines 105-107): `this._matrix[0].length`.  On a
zero-row matrix `this._matrix[0]` is `undefined` and reading `.length` throws
a `TypeError`. -/
def Matrix.m (A : Matrix) : Except Err Nat :=
  match A.rows.head? with
  | some r => .ok r.length
  | none => .error .typeError

/-- Pure element accessor used only in specification statements. -/
def Matrix.entry (A : Matrix) (i j : Nat) : ℚ := (A.rows.getD i []).getD j 0

/-- `Matrix.assertValidity` (matrix.ts lines 70-77): reads
`array2d[0].length` (a `TypeError` on empty input) and then requires every row
to have that length, else throws `InvalidMatrixShape`. -/
def Matrix.assertValidity (a : List (List ℚ)) : Except Err Unit :=
  match a.head? with
  | none => .error .typeError
  | some r0 =>
    if a.all (fun row => row.length == r0.length) then .ok () else .error .invalidMatrixShape

/-- `new Matrix(array2d)` (matrix.ts lines 50-54): validate, then wrap. -/
def Matrix.ofArray (a : List (List ℚ)) : Except Err Matrix := do
  Matrix.assertValidity a
  pure ⟨a⟩

/-- `new Matrix(n, value)` — the two-argument overload (matrix.ts lines 12 and
56-61).  In this call `arg1 = value` and `arg2` is `undefined`, so the source
computes `m = n` (because `arg2 === undefined`) and
`fillValue = arg2 ?? 0 = 0`: only `arg2` ever feeds `fillValue`, hence the
`value` argument is never read and the result is an all-zero `n`×`n` matrix. -/
def Matrix.ofSize (n : Nat) (value : ℚ) : Matrix :=
  ⟨List.replicate n (List.replicate n 0)⟩

/-- `new Matrix(n, m, value)` — the three-argument overload (matrix.ts lines 20
and 56-61): here `arg2 = value` is defined, so `m = arg1` and
`fillValue = value`. -/
def Matrix.ofDims (n cols : Nat) (value : ℚ) : Matrix :=
  ⟨List.replicate n (List.replicate cols value)⟩

/-- `Matrix.checkBounds` (matrix.ts lines 217-221):
`i < 0 || j < 0 || i >= this.n || j >= this.m`, left to right with
short-circuiting, so `this.m` (which can throw on a zero-row matrix) is only
read after `i >= this.n` has been ruled out.  Indices are `Nat`, so the two
negativity tests are vacuous. -/
def Matrix.checkBounds (A : Matrix) (i j : Nat) : Except Err Unit :=
  if i ≥ A.n then .error .indexOutOfBounds
  else do
    let colCount ← A.m
    if j ≥ colCount then .error .indexOutOfBounds else .ok ()

/-- `Matrix.getAt` (matrix.ts lines 116-120): bounds check, then read. -/
def Matrix.getAt (A : Matrix) (i j : Nat) : Except Err ℚ := do
  A.checkBounds i j
  pure ((A.rows.getD i []).getD j 0)

/-- Models `indices.forEach(([i, j]) => this.checkBounds(i, j))`
(matrix.ts line 149): run a fallible action on every pair, left to right. -/
def tryAll (f : Nat × Nat → Except Err Unit) : List (Nat × Nat) → Except Err Unit
  | [] => .ok ()
  | p :: ps => do
    f p
    tryAll f ps

/-- In-place double update `arr[i][j] = x` on the copied 2D array
(matrix.ts line 154).  `List.set` is the identity out of range, which cannot
happen at the call site because every index pair was bounds-checked first. -/
def set2d (arr : List (List ℚ)) (i j : Nat) (x : ℚ) : List (List ℚ) :=
  arr.set i ((arr.getD i []).set j x)

/-- Models `values.forEach((value, index) => { const [i, j] = indices[index];
arr[i][j] = value; })` (matrix.ts lines 152-155).  `k` is the running `index`;
when `values` is longer than `indices`, `indices[index]` is `undefined` and the
destructuring throws a `TypeError`. -/
def applyValues (indices : List (Nat × Nat)) : List (List ℚ) → List ℚ → Nat → Except Err (List (List ℚ))
  | arr, [], _ => .ok arr
  | arr, x :: xs, k =>
    match indices.get? k with
    | none => .error .typeError
    | some (i, j) => applyValues indices (set2d arr i j x) xs (k + 1)

/-- `Matrix.setMultiple` (matrix.ts lines 148-158): bounds-check every index
pair first, then apply all updates on a copy, then rebuild through the
validating constructor `new Matrix(arr)`. -/
def Matrix.setMultiple (A : Matrix) (values : List ℚ) (indices : List (Nat × Nat)) :
    Except Err Matrix := do
  tryAll (fun p => A.checkBounds p.1 p.2) indices
  let arr ← applyValues indices A.rows values 0
  Matrix.ofArray arr

/-- `Matrix.identity` (matrix.ts lines 86-93): start from `new Matrix(n, 0)`
(an all-zero `n`×`n` matrix), then bulk-set the diagonal to 1 through
`setMultiple`. -/
def Matrix.identity (n : Nat) : Except Err Matrix :=
  let base := Matrix.ofSize n 0
  let ones : List ℚ := List.replicate n 1
  let indices := (List.range n).map (fun i => (i, i))
  base.setMultiple ones indices

/-- Collecting traversal used to model the result-building loops of
`matrixMultiplication` (one fallible computation per index, left to right). -/
def collect {α : Type} (f : Nat → Except Err α) : List Nat → Except Err (List α)
  | [] => .ok []
  | i :: is => do
    let x ← f i
    let xs ← collect f is
    pure (x :: xs)

/-- Left fold with a fallible step, modelling the accumulation
`m[i][j] += this.getAt(i, k) * matrix.getAt(k, j)` over increasing `k`. -/
def accumulate (f : ℚ → Nat → Except Err ℚ) : List Nat → ℚ → Except Err ℚ
  | [], acc => .ok acc
  | k :: ks, acc => do
    let acc2 ← f acc k
    accumulate f ks acc2

/-- `Matrix.matrixMultiplication` (matrix.ts lines 190-202).  The result is
allocated as `this.n` rows of `matrix.m` zeros — `matrix.m` is read inside the
per-row callback, so with `this.n = 0` it is never read — then filled by the
triple loop `i < this.n`, `j < matrix.m`, `k < this.m` with
`m[i][j] += this.getAt(i, k) * matrix.getAt(k, j)`, and finally rebuilt through
the validating constructor `new Matrix(m)`.  `this.m` (here `A.mval`) is only
read once `i < this.n` holds, where it cannot throw. -/
def Matrix.matrixMultiplication (A B : Matrix) : Except Err Matrix := do
  let rows ← collect (fun i => do
    let bm ← B.m
    collect (fun j =>
      accumulate (fun acc k => do
        let x ← A.getAt i k
        let y ← B.getAt k j
        pure (acc + x * y)) (List.range A.mval) 0) (List.range bm)) (List.range A.n)
  Matrix.ofArray rows

/-- `Matrix.transpose` (matrix.ts lines 209-215): allocate `this.m` rows of
`this.n` slots (reading `this.m` unconditionally — a `TypeError` on a zero-row
matrix), fill `matrix[j][i] = this[i][j]`, and rebuild through the validating
constructor.  On rectangular input every slot is assigned, giving row `j` the
elements `this[0][j], …, this[n-1][j]`. -/
def Matrix.transpose (A : Matrix) : Except Err Matrix := do
  let colCount ← A.m
  Matrix.ofArray ((List.range colCount).map (fun j =>
    (List.range A.n).map (fun i => (A.rows.getD i []).getD j 0)))

/-- The construction invariant enforced by `Matrix.assertValidity`: at least
one row, and every row as long as the first.  Every matrix built by the
source's constructors satisfies it (a zero-row matrix can only arise from the
filled constructors with `n = 0`, cf. claim C10). -/
def Matrix.Valid (A : Matrix) : Prop :=
  A.rows ≠ [] ∧ ∀ r ∈ A.rows, r.length = A.mval

instance (A : Matrix) : Decidable A.Valid := by
  unfold Matrix.Valid
  infer_instance

/-! ### Basic reduction lemmas for the `Except` monad and list helpers -/

lemma ok_bind {α β : Type} (a : α) (f : α → Except Err β) :
    (Except.ok a >>= f) = f a := rfl

lemma pure_eq_ok {α : Type} (a : α) : (pure a : Except Err α) = Except.ok a := rfl

lemma err_bind {α β : Type} (e : Err) (f : α → Except Err β) :
    ((Except.error e : Except Err α) >>= f) = Except.error e := rfl

lemma getD_map_range {α : Type} (f : Nat → α) {i nn : Nat} (h : i < nn) (d : α) :
    ((List.range nn).map f).getD i d = f i := by
  rw [List.getD_eq_getElem?_getD, List.getElem?_map, List.getElem?_range h]
  rfl

lemma map_range_getD {α : Type} (d : α) :
    ∀ r : List α, (List.range r.length).map (fun j => r.getD j d) = r
  | [] => by simp
  | a :: r => by
    rw [List.length_cons, List.range_succ_eq_map]
    simp only [List.map_cons, List.getD_cons_zero, List.map_map]
    have hcomp : ((fun j => (a :: r).getD j d) ∘ Nat.succ) = fun j => r.getD j d := by
      funext j
      simp
    rw [hcomp, map_range_getD d r]

lemma range_decomp : ∀ nn kk : Nat, kk < nn →
    ∃ rest, List.range nn = List.range kk ++ kk :: rest := by
  intro nn
  induction nn with
  | zero => omega
  | succ m ih =>
    intro kk hk
    rcases Nat.lt_or_ge kk m with h | h
    · obtain ⟨rest, hr⟩ := ih kk h
      refine ⟨rest ++ [m], ?_⟩
      rw [List.range_succ m, hr]
      simp
    · have hkm : kk = m := by omega
      subst hkm
      exact ⟨[], List.range_succ kk⟩

lemma foldl_add_eq_sum (g : Nat → ℚ) :
    ∀ (l : List Nat) (init : ℚ),
      l.foldl (fun acc k => acc + g k) init = init + (l.map g).sum := by
  intro l
  induction l with
  | nil => simp
  | cons a l ih =>
    intro init
    simp only [List.foldl_cons, List.map_cons, List.sum_cons]
    rw [ih (init + g a), add_assoc]

lemma sum_map_range_ite (c : ℚ) :
    ∀ nn j : Nat, j < nn →
      ((List.range nn).map (fun k => if k = j then c else 0)).sum = c := by
  intro nn
  induction nn with
  | zero => omega
  | succ m ih =>
    intro j hj
    rw [List.range_succ m, List.map_append, List.sum_append]
    rcases Nat.lt_or_ge j m with h | h
    · rw [ih j h]
      simp [Nat.ne_of_gt h]
    · have hjm : j = m := by omega
      subst hjm
      have hz : ((List.range j).map (fun k => if k = j then c else 0)).sum = 0 := by
        apply List.sum_eq_zero
        intro x hx
        simp only [List.mem_map, List.mem_range] at hx
        obtain ⟨k, hk, rfl⟩ := hx
        rw [if_neg (by omega)]
      simp [hz]

/-! ### Behaviour of the traversal combinators -/

lemma collect_ok {α : Type} (f : Nat → Except Err α) (g : Nat → α) :
    ∀ l : List Nat, (∀ i ∈ l, f i = .ok (g i)) → collect f l = .ok (l.map g) := by
  intro l
  induction l with
  | nil => intro; rfl
  | cons a l ih =>
    intro h
    show (do
      let x ← f a
      let xs ← collect f l
      pure (x :: xs) : Except Err (List α)) = _
    rw [h a (by simp), ok_bind, ih (fun i hi => h i (by simp [hi])), ok_bind]
    rfl

lemma collect_err {α : Type} (f : Nat → Except Err α) (e : Err) :
    ∀ (l1 : List Nat) (i0 : Nat) (l2 : List Nat),
      (∀ i ∈ l1, ∃ y, f i = .ok y) → f i0 = .error e →
      collect f (l1 ++ i0 :: l2) = .error e := by
  intro l1
  induction l1 with
  | nil =>
    intro i0 l2 _ herr
    show (do
      let x ← f i0
      let xs ← collect f l2
      pure (x :: xs) : Except Err (List α)) = _
    rw [herr, err_bind]
  | cons a l ih =>
    intro i0 l2 hok herr
    obtain ⟨y, hy⟩ := hok a (by simp)
    show (do
      let x ← f a
      let xs ← collect f (l ++ i0 :: l2)
      pure (x :: xs) : Except Err (List α)) = _
    rw [hy, ok_bind, ih i0 l2 (fun i hi => hok i (by simp [hi])) herr, err_bind]

lemma accumulate_ok (f : ℚ → Nat → Except Err ℚ) (g : ℚ → Nat → ℚ) :
    ∀ l : List Nat, (∀ acc k, k ∈ l → f acc k = .ok (g acc k)) →
      ∀ init, accumulate f l init = .ok (l.foldl g init) := by
  intro l
  induction l with
  | nil => intro _ init; rfl
  | cons a l ih =>
    intro h init
    show (do
      let acc2 ← f init a
      accumulate f l acc2 : Except Err ℚ) = _
    rw [h init a (by simp), ok_bind, ih (fun acc k hk => h acc k (by simp [hk])) (g init a)]
    rfl

lemma accumulate_err (f : ℚ → Nat → Except Err ℚ) (e : Err) :
    ∀ (l1 : List Nat) (k0 : Nat) (l2 : List Nat),
      (∀ acc k, k ∈ l1 → ∃ y, f acc k = .ok y) → (∀ acc, f acc k0 = .error e) →
      ∀ init, accumulate f (l1 ++ k0 :: l2) init = .error e := by
  intro l1
  induction l1 with
  | nil =>
    intro k0 l2 _ herr init
    show (do
      let acc2 ← f init k0
      accumulate f l2 acc2 : Except Err ℚ) = _
    rw [herr init, err_bind]
  | cons a l ih =>
    intro k0 l2 hok herr init
    obtain ⟨y, hy⟩ := hok init a (by simp)
    show (do
      let acc2 ← f init a
      accumulate f (l ++ k0 :: l2) acc2 : Except Err ℚ) = _
    rw [hy, ok_bind, ih k0 l2 (fun acc k hk => hok acc k (by simp [hk])) herr y]

lemma tryAll_ok (f : Nat × Nat → Except Err Unit) :
    ∀ l : List (Nat × Nat), (∀ p ∈ l, f p = .ok ()) → tryAll f l = .ok () := by
  intro l
  induction l with
  | nil => intro; rfl
  | cons a l ih =>
    intro h
    show (do
      f a
      tryAll f l : Except Err Unit) = _
    rw [h a (by simp), ok_bind, ih (fun p hp => h p (by simp [hp]))]

lemma tryAll_err (f : Nat × Nat → Except Err Unit) (e : Err) :
    ∀ l : List (Nat × Nat),
      (∀ p ∈ l, f p = .ok () ∨ f p = .error e) →
      (∃ p ∈ l, f p = .error e) → tryAll f l = .error e := by
  intro l
  induction l with
  | nil =>
    intro _ hex
    obtain ⟨p, hp, _⟩ := hex
    cases hp
  | cons a l ih =>
    intro hd hex
    show (do
      f a
      tryAll f l : Except Err Unit) = _
    rcases hd a (by simp) with ha | ha
    · rw [ha, ok_bind]
      apply ih (fun p hp => hd p (by simp [hp]))
      obtain ⟨p, hp, hperr⟩ := hex
      rcases List.mem_cons.1 hp with rfl | hmem
      · rw [ha] at hperr
        cases hperr
      · exact ⟨p, hmem, hperr⟩
    · rw [ha, err_bind]

/-! ### Vector accessor and addition lemmas -/

lemma Vector.getAt_of_lt (v : Vector) {i : Nat} (h : i < v.dimension) :
    v.getAt i = .ok (v.entry i) := by
  show (v.checkBounds i >>= fun _ => pure (v.elems.getD i 0)) = _
  unfold Vector.checkBounds
  rw [if_neg (by omega), ok_bind]
  rfl

lemma Vector.getAt_of_ge (v : Vector) {i : Nat} (h : v.dimension ≤ i) :
    v.getAt i = .error .indexOutOfBounds := by
  show (v.checkBounds i >>= fun _ => pure (v.elems.getD i 0)) = _
  unfold Vector.checkBounds
  rw [if_pos (by omega), err_bind]

lemma add_go_ok (w : Vector) :
    ∀ (xs : List ℚ) (s : Nat), s + xs.length ≤ w.dimension →
      ∃ ys, mapIdxGo (fun i x => do
          let y ← w.getAt i
          pure (x + y)) s xs = .ok ys ∧ ys.length = xs.length ∧
        ∀ t, t < xs.length → ys.getD t 0 = xs.getD t 0 + w.entry (s + t) := by
  intro xs
  induction xs with
  | nil =>
    intro s _
    refine ⟨[], rfl, rfl, ?_⟩
    intro t ht
    exact absurd ht (by simp)
  | cons x xs ih =>
    intro s h
    have hs : s < w.dimension := by
      simp only [List.length_cons] at h
      omega
    obtain ⟨ys, hys, hlen, hget⟩ := ih (s + 1) (by simp only [List.length_cons] at h; omega)
    refine ⟨(x + w.entry s) :: ys, ?_, by simp [hlen], ?_⟩
    · show ((w.getAt s >>= fun y => pure (x + y)) >>= fun y =>
        mapIdxGo _ (s + 1) xs >>= fun ys2 => pure (y :: ys2)) = _
      rw [Vector.getAt_of_lt w hs, ok_bind, pure_eq_ok, ok_bind, hys, ok_bind, pure_eq_ok]
    · intro t ht
      cases t with
      | zero => simp
      | succ t2 =>
        simp only [List.getD_cons_succ]
        have hrec := hget t2 (by simp only [List.length_cons] at ht; omega)
        have harg : s + 1 + t2 = s + (t2 + 1) := by omega
        rw [hrec, harg]

lemma add_go_err (w : Vector) :
    ∀ (xs : List ℚ) (s : Nat), s ≤ w.dimension → w.dimension < s + xs.length →
      mapIdxGo (fun i x => do
          let y ← w.getAt i
          pure (x + y)) s xs = .error .indexOutOfBounds := by
  intro xs
  induction xs with
  | nil =>
    intro s h1 h2
    simp only [List.length_nil] at h2
    omega
  | cons x xs ih =>
    intro s h1 h2
    show ((w.getAt s >>= fun y => pure (x + y)) >>= fun y =>
      mapIdxGo _ (s + 1) xs >>= fun ys2 => pure (y :: ys2)) = _
    rcases Nat.lt_or_ge s w.dimension with hs | hs
    · rw [Vector.getAt_of_lt w hs, ok_bind, pure_eq_ok, ok_bind,
        ih (s + 1) (by omega) (by simp only [List.length_cons] at h2; omega), err_bind]
    · rw [Vector.getAt_of_ge w hs, err_bind, err_bind]

/-- Full characterization of `Vector.add`: it succeeds exactly when the other
vector is at least as long, producing the element-wise sums over the
receiver's indices; otherwise it raises `IndexOutOfBounds`. -/
lemma add_ok_of_le (v w : Vector) (h : v.dimension ≤ w.dimension) :
    ∃ u, v.add w = .ok u ∧ u.dimension = v.dimension ∧
      ∀ t, t < v.dimension → u.entry t = v.entry t + w.entry t := by
  obtain ⟨ys, hys, hlen, hget⟩ := add_go_ok w v.elems 0 (by simpa using h)
  refine ⟨⟨ys⟩, ?_, hlen, ?_⟩
  · show (mapIdxGo _ 0 v.elems >>= fun elems => pure (⟨elems⟩ : Vector)) = _
    rw [hys, ok_bind, pure_eq_ok]
  · intro t ht
    have hrec := hget t ht
    simpa [Vector.entry] using hrec

lemma add_err_of_lt (v w : Vector) (h : w.dimension < v.dimension) :
    v.add w = .error .indexOutOfBounds := by
  show (mapIdxGo _ 0 v.elems >>= fun elems => pure (⟨elems⟩ : Vector)) = _
  rw [add_go_err w v.elems 0 (by omega) (by simpa using h), err_bind]

/-! ### Matrix accessor lemmas -/

lemma Matrix.m_ok (A : Matrix) (h : A.rows ≠ []) : A.m = .ok A.mval := by
  unfold Matrix.m Matrix.mval
  cases hr : A.rows with
  | nil => exact absurd hr h
  | cons r rs => simp

lemma Matrix.checkBounds_ok (A : Matrix) {i j : Nat} (hi : i < A.n) (hj : j < A.mval) :
    A.checkBounds i j = .ok () := by
  unfold Matrix.checkBounds
  rw [if_neg (by omega), Matrix.m_ok A (by
    intro hnil
    rw [Matrix.n, hnil] at hi
    exact absurd hi (by simp)), ok_bind, if_neg (by omega)]

lemma Matrix.checkBounds_err (A : Matrix) {i j : Nat} (h : A.n ≤ i ∨ A.mval ≤ j) :
    A.checkBounds i j = .error .indexOutOfBounds := by
  unfold Matrix.checkBounds
  rcases Nat.lt_or_ge i A.n with hi | hi
  · rw [if_neg (by omega), Matrix.m_ok A (by
      intro hnil
      rw [Matrix.n, hnil] at hi
      exact absurd hi (by simp)), ok_bind, if_pos (by omega)]
  · rw [if_pos (by omega)]

lemma Matrix.checkBounds_cases (A : Matrix) (i j : Nat) :
    A.checkBounds i j = .ok () ∨ A.checkBounds i j = .error .indexOutOfBounds := by
  rcases Nat.lt_or_ge i A.n with hi | hi
  · rcases Nat.lt_or_ge j A.mval with hj | hj
    · exact Or.inl (A.checkBounds_ok hi hj)
    · exact Or.inr (A.checkBounds_err (Or.inr hj))
  · exact Or.inr (A.checkBounds_err (Or.inl hi))

lemma Matrix.getAt_ok (A : Matrix) {i j : Nat} (hi : i < A.n) (hj : j < A.mval) :
    A.getAt i j = .ok (A.entry i j) := by
  show (A.checkBounds i j >>= fun _ => pure ((A.rows.getD i []).getD j 0)) = _
  rw [A.checkBounds_ok hi hj, ok_bind]
  rfl

lemma Matrix.getAt_err (A : Matrix) {i j : Nat} (h : A.n ≤ i ∨ A.mval ≤ j) :
    A.getAt i j = .error .indexOutOfBounds := by
  show (A.checkBounds i j >>= fun _ => pure ((A.rows.getD i []).getD j 0)) = _
  rw [A.checkBounds_err h, err_bind]

lemma Matrix.ofArray_ok (a : List (List ℚ)) (h0 : a ≠ [])
    (h1 : ∀ r ∈ a, r.length = (a.headD []).length) :
    Matrix.ofArray a = .ok ⟨a⟩ := by
  show (Matrix.assertValidity a >>= fun _ => pure (⟨a⟩ : Matrix)) = _
  unfold Matrix.assertValidity
  cases a with
  | nil => exact absurd rfl h0
  | cons r rs =>
    simp only [List.head?_cons]
    rw [if_pos (by
      rw [List.all_eq_true]
      intro row hrow
      rw [beq_iff_eq]
      exact h1 row hrow), ok_bind, pure_eq_ok]

lemma Matrix.valid_n_pos (A : Matrix) (hA : A.Valid) : 0 < A.n := by
  rcases hA with ⟨hne, _⟩
  rw [Matrix.n]
  exact List.length_pos.2 hne

lemma headD_eq_getD_zero {α : Type} (l : List α) (d : α) : l.headD d = l.getD 0 d := by
  cases l <;> rfl

lemma headD_map_range {α : Type} (f : Nat → α) {nn : Nat} (h : 0 < nn) (d : α) :
    ((List.range nn).map f).headD d = f 0 := by
  rw [headD_eq_getD_zero]
  exact getD_map_range f h d

lemma range_map_ne_nil {α : Type} (f : Nat → α) {nn : Nat} (h : 0 < nn) :
    (List.range nn).map f ≠ [] := by
  intro hnil
  rw [List.map_eq_nil_iff, List.range_eq_nil] at hnil
  omega

lemma Matrix.valid_row_len (A : Matrix) (hA : A.Valid) {i : Nat} (hi : i < A.n) :
    (A.rows.getD i []).length = A.mval := by
  rcases hA with ⟨_, hrect⟩
  apply hrect
  rw [List.getD_eq_getElem?_getD]
  cases hg : A.rows[i]? with
  | none =>
    rw [List.getElem?_eq_none_iff] at hg
    exact absurd hg (by rw [Matrix.n] at hi; omega)
  | some r =>
    simp only [Option.getD_some]
    exact List.getElem?_mem hg

/-! ### Matrix multiplication: success characterization -/

/-- On valid operands with `A.m ≤ B.n`, every indexed read of the triple loop
is in bounds, and `matrixMultiplication` returns the matrix of accumulated
products (accumulation in increasing `k`, as in the source loop). -/
lemma Matrix.mm_ok (A B : Matrix) (hA : A.Valid) (hB : B.Valid) (hk : A.mval ≤ B.n) :
    A.matrixMultiplication B = .ok ⟨(List.range A.n).map (fun i =>
      (List.range B.mval).map (fun j =>
        (List.range A.mval).foldl (fun acc k => acc + A.entry i k * B.entry k j) 0))⟩ := by
  have hstep : ∀ i j, i < A.n → j < B.mval → ∀ acc k, k ∈ List.range A.mval →
      (do
        let x ← A.getAt i k
        let y ← B.getAt k j
        pure (acc + x * y) : Except Err ℚ) = .ok (acc + A.entry i k * B.entry k j) := by
    intro i j hi hj acc k hkmem
    rw [List.mem_range] at hkmem
    rw [A.getAt_ok hi hkmem, ok_bind,
      B.getAt_ok (by omega : k < B.n) hj, ok_bind, pure_eq_ok]
  have hrow : ∀ i ∈ List.range A.n,
      (do
        let bm ← B.m
        collect (fun j =>
          accumulate (fun acc k => do
            let x ← A.getAt i k
            let y ← B.getAt k j
            pure (acc + x * y)) (List.range A.mval) 0) (List.range bm) : Except Err (List ℚ)) =
      .ok ((List.range B.mval).map (fun j =>
        (List.range A.mval).foldl (fun acc k => acc + A.entry i k * B.entry k j) 0)) := by
    intro i hi
    rw [List.mem_range] at hi
    rw [Matrix.m_ok B hB.1, ok_bind]
    apply collect_ok
    intro j hj
    rw [List.mem_range] at hj
    exact accumulate_ok _ _ (List.range A.mval) (hstep i j hi hj) 0
  show (collect _ (List.range A.n) >>= fun rows => Matrix.ofArray rows) = _
  rw [collect_ok _ _ (List.range A.n) hrow, ok_bind]
  apply Matrix.ofArray_ok
  · exact range_map_ne_nil _ (A.valid_n_pos hA)
  · intro r hr
    rw [List.mem_map] at hr
    obtain ⟨i, _, rfl⟩ := hr
    rw [headD_map_range _ (A.valid_n_pos hA)]
    simp

/-! ### Transpose: success characterization and reconstruction -/

lemma Matrix.transpose_ok (A : Matrix) (hA : A.Valid) (hm : 0 < A.mval) :
    A.transpose = .ok ⟨(List.range A.mval).map (fun j =>
      (List.range A.n).map (fun i => A.entry i j))⟩ := by
  show (A.m >>= fun colCount => Matrix.ofArray ((List.range colCount).map (fun j =>
    (List.range A.n).map (fun i => (A.rows.getD i []).getD j 0)))) = _
  rw [Matrix.m_ok A hA.1, ok_bind]
  apply Matrix.ofArray_ok
  · exact range_map_ne_nil _ hm
  · intro r hr
    rw [List.mem_map] at hr
    obtain ⟨j, _, rfl⟩ := hr
    rw [headD_map_range _ hm]
    simp

/-- A valid matrix is recovered from its entry function: mapping
`(i, j) ↦ A[i][j]` over the index ranges rebuilds exactly `A.rows`. -/
lemma Matrix.rows_reconstruct (A : Matrix) (hA : A.Valid) :
    (List.range A.n).map (fun i => (List.range A.mval).map (fun j => A.entry i j)) = A.rows := by
  have hinner : ∀ i ∈ List.range A.n,
      (List.range A.mval).map (fun j => A.entry i j) = A.rows.getD i [] := by
    intro i hi
    rw [List.mem_range] at hi
    have hlen := A.valid_row_len hA hi
    rw [← hlen]
    exact map_range_getD 0 (A.rows.getD i [])
  rw [List.map_congr_left hinner]
  show (List.range A.rows.length).map (fun i => A.rows.getD i []) = A.rows
  exact map_range_getD [] A.rows

/-! ### Element update lemmas (for `setMultiple` and `identity`) -/

lemma set_getD {α : Type} (l : List α) (b : Nat) (x d : α) (j : Nat) (hb : b < l.length) :
    (l.set b x).getD j d = if j = b then x else l.getD j d := by
  by_cases hj : j = b
  · subst hj
    rw [List.getD_eq_getElem?_getD, List.getElem?_set_self hb, if_pos rfl]
    rfl
  · rw [List.getD_eq_getElem?_getD, List.getElem?_set_ne (by omega), if_neg hj,
      List.getD_eq_getElem?_getD]

lemma set2d_length (arr : List (List ℚ)) (a b : Nat) (x : ℚ) :
    (set2d arr a b x).length = arr.length := by
  unfold set2d
  exact List.length_set arr a _

lemma set2d_rowlen (arr : List (List ℚ)) (a b : Nat) (x : ℚ) (i : Nat) :
    ((set2d arr a b x).getD i []).length = (arr.getD i []).length := by
  unfold set2d
  by_cases hia : i = a
  · subst hia
    rw [List.getD_eq_getElem?_getD, List.getElem?_set_self']
    cases hg : arr[i]? with
    | none =>
      rw [List.getD_eq_getElem?_getD, hg]
      rfl
    | some r =>
      rw [List.getD_eq_getElem?_getD, hg]
      simp
  · rw [List.getD_eq_getElem?_getD, List.getElem?_set_ne (by omega),
      List.getD_eq_getElem?_getD]

lemma set2d_entry (arr : List (List ℚ)) (a b : Nat) (x : ℚ) (i j : Nat)
    (ha : a < arr.length) (hb : b < (arr.getD a []).length) :
    ((set2d arr a b x).getD i []).getD j 0 =
      if i = a ∧ j = b then x else (arr.getD i []).getD j 0 := by
  unfold set2d
  by_cases hia : i = a
  · subst hia
    rw [List.getD_eq_getElem?_getD (arr.set i _), List.getElem?_set_self ha]
    simp only [Option.getD_some]
    rw [set_getD _ _ _ _ _ hb]
    split_ifs <;> first | rfl | (exfalso; tauto)
  · rw [List.getD_eq_getElem?_getD (arr.set a _), List.getElem?_set_ne (by omega),
      if_neg (by tauto), List.getD_eq_getElem?_getD arr]

/-- Behaviour of the update loop of `setMultiple` on the diagonal index list
used by `identity`: starting at position `kk` with `t` remaining ones
(`kk + t = nn`), it succeeds and sets every remaining diagonal cell to 1. -/
lemma applyValues_diag (nn : Nat) :
    ∀ (t kk : Nat) (arr : List (List ℚ)), kk + t = nn → arr.length = nn →
      (∀ i, i < nn → (arr.getD i []).length = nn) →
      ∃ arr2, applyValues ((List.range nn).map (fun i => (i, i))) arr (List.replicate t 1) kk
          = .ok arr2 ∧ arr2.length = nn ∧ (∀ i, i < nn → (arr2.getD i []).length = nn) ∧
        ∀ i j, i < nn → j < nn → (arr2.getD i []).getD j 0 =
          if i = j ∧ kk ≤ i then 1 else (arr.getD i []).getD j 0 := by
  intro t
  induction t with
  | zero =>
    intro kk arr hkt hlen hrows
    refine ⟨arr, rfl, hlen, hrows, ?_⟩
    intro i j hi _
    rw [if_neg (by omega)]
  | succ t2 ih =>
    intro kk arr hkt hlen hrows
    have hkk : kk < nn := by omega
    have hget : ((List.range nn).map (fun i => (i, i))).get? kk = some (kk, kk) := by
      rw [List.get?_eq_getElem?, List.getElem?_map, List.getElem?_range hkk]
      rfl
    obtain ⟨arr2, happ, hlen2, hrows2, hent2⟩ := ih (kk + 1) (set2d arr kk kk 1) (by omega)
      (by rw [set2d_length]; exact hlen)
      (by intro i hi; rw [set2d_rowlen]; exact hrows i hi)
    refine ⟨arr2, ?_, hlen2, hrows2, ?_⟩
    · rw [List.replicate_succ]
      show (match ((List.range nn).map (fun i => (i, i))).get? kk with
        | none => (Except.error Err.typeError : Except Err (List (List ℚ)))
        | some (i, j) => applyValues ((List.range nn).map (fun i2 => (i2, i2)))
            (set2d arr i j 1) (List.replicate t2 1) (kk + 1)) = _
      rw [hget]
      exact happ
    · intro i j hi hj
      rw [hent2 i j hi hj,
        set2d_entry arr kk kk 1 i j (by omega) (by rw [hrows kk hkk]; omega)]
      split_ifs <;> first | rfl | (exfalso; omega)

/-- For `n ≥ 1`, `Matrix.identity n` succeeds and yields the n×n matrix with
1 on the diagonal and 0 elsewhere. -/
lemma Matrix.identity_ok (nn : Nat) (h : 0 < nn) :
    ∃ I, Matrix.identity nn = .ok I ∧ I.Valid ∧ I.n = nn ∧ I.mval = nn ∧
      ∀ i j, i < nn → j < nn → I.entry i j = if i = j then 1 else 0 := by
  have hbase_len : (List.replicate nn (List.replicate nn (0:ℚ))).length = nn := by simp
  have hbase_rows : ∀ i, i < nn →
      ((List.replicate nn (List.replicate nn (0:ℚ))).getD i []).length = nn := by
    intro i hi
    rw [List.getD_eq_getElem?_getD, List.getElem?_replicate, if_pos hi]
    simp
  have hB0n : (Matrix.ofSize nn 0).n = nn := by
    unfold Matrix.ofSize Matrix.n
    simp
  have hB0m : (Matrix.ofSize nn 0).mval = nn := by
    unfold Matrix.ofSize Matrix.mval
    obtain ⟨t, rfl⟩ : ∃ t, nn = t + 1 := ⟨nn - 1, by omega⟩
    rw [List.replicate_succ]
    simp
  obtain ⟨arr2, happ, hlen2, hrows2, hent2⟩ :=
    applyValues_diag nn nn 0 (List.replicate nn (List.replicate nn 0)) (by omega)
      hbase_len hbase_rows
  have hne2 : arr2 ≠ [] := by
    intro hnil
    rw [hnil] at hlen2
    simp at hlen2
    omega
  have hhead2 : (arr2.headD []).length = nn := by
    rw [headD_eq_getD_zero]
    exact hrows2 0 h
  refine ⟨⟨arr2⟩, ?_, ⟨hne2, ?_⟩, hlen2, ?_, ?_⟩
  · show (Matrix.ofSize nn 0).setMultiple (List.replicate nn 1)
      ((List.range nn).map (fun i => (i, i))) = _
    show (tryAll (fun p => (Matrix.ofSize nn 0).checkBounds p.1 p.2)
        ((List.range nn).map (fun i => (i, i))) >>= fun _ =>
      (applyValues ((List.range nn).map (fun i => (i, i)))
          (Matrix.ofSize nn 0).rows (List.replicate nn 1) 0 >>= fun arr =>
        Matrix.ofArray arr)) = _
    rw [tryAll_ok _ _ (by
      intro p hp
      rw [List.mem_map] at hp
      obtain ⟨i, hi, rfl⟩ := hp
      rw [List.mem_range] at hi
      exact (Matrix.ofSize nn 0).checkBounds_ok (by omega) (by omega)), ok_bind]
    show (applyValues ((List.range nn).map (fun i => (i, i)))
        (List.replicate nn (List.replicate nn 0)) (List.replicate nn 1) 0 >>= fun arr =>
      Matrix.ofArray arr) = _
    rw [happ, ok_bind]
    apply Matrix.ofArray_ok arr2 hne2
    intro r hr
    rw [List.mem_iff_getElem] at hr
    obtain ⟨idx, hlt, rfl⟩ := hr
    have hgd : arr2.getD idx [] = arr2[idx] := by
      rw [List.getD_eq_getElem?_getD, List.getElem?_eq_getElem hlt]
      rfl
    rw [← hgd, hrows2 idx (by omega), hhead2]
  · intro r hr
    rw [List.mem_iff_getElem] at hr
    obtain ⟨idx, hlt, rfl⟩ := hr
    have hlt2 : idx < arr2.length := hlt
    have hgd : arr2.getD idx [] = arr2[idx] := by
      rw [List.getD_eq_getElem?_getD, List.getElem?_eq_getElem hlt]
      rfl
    show arr2[idx].length = Matrix.mval ⟨arr2⟩
    rw [← hgd, hrows2 idx (by omega)]
    show nn = (arr2.headD []).length
    rw [hhead2]
  · show (arr2.headD []).length = nn
    exact hhead2
  · intro i j hi hj
    show (arr2.getD i []).getD j 0 = _
    rw [hent2 i j hi hj]
    have hbase0 : ((List.replicate nn (List.replicate nn (0:ℚ))).getD i []).getD j 0 = 0 := by
      rw [List.getD_eq_getElem?_getD (List.replicate nn (List.replicate nn (0:ℚ))) i,
        List.getElem?_replicate, if_pos hi]
      show (List.replicate nn (0:ℚ)).getD j 0 = 0
      rw [List.getD_eq_getElem?_getD (List.replicate nn (0:ℚ)) j,
        List.getElem?_replicate, if_pos hj]
      rfl
    rw [hbase0]
    split_ifs <;> first | rfl | (exfalso; omega)

/-- Packaged success form of `mm_ok`: shape and entry characterization. -/
lemma mm_ok_packaged (A B : Matrix) (hA : A.Valid) (hB : B.Valid) (hk : A.mval ≤ B.n) :
    ∃ C, A.matrixMultiplication B = .ok C ∧ C.n = A.n ∧ C.mval = B.mval ∧
      ∀ i j, i < A.n → j < B.mval → C.entry i j =
        (List.range A.mval).foldl (fun acc k => acc + A.entry i k * B.entry k j) 0 := by
  refine ⟨_, Matrix.mm_ok A B hA hB hk, ?_, ?_, ?_⟩
  · show ((List.range A.n).map _).length = A.n
    simp
  · show (((List.range A.n).map _).headD []).length = B.mval
    rw [headD_map_range _ (A.valid_n_pos hA)]
    simp
  · intro i j hi hj
    show (((List.range A.n).map _).getD i []).getD j 0 = _
    rw [getD_map_range _ hi, getD_map_range _ hj]

/-- With valid operands, `B.n < A.m` and at least one column in `B`, the inner
loop of `matrixMultiplication` reads `B[k][j]` at `k = B.n`, which raises
`IndexOutOfBounds`. -/
lemma Matrix.mm_err (A B : Matrix) (hA : A.Valid) (hB : B.Valid)
    (hn : B.n < A.mval) (hm : 0 < B.mval) :
    A.matrixMultiplication B = .error Err.indexOutOfBounds := by
  have hA0 : 0 < A.n := A.valid_n_pos hA
  have haccErr : accumulate (fun acc k => do
      let x ← A.getAt 0 k
      let y ← B.getAt k 0
      pure (acc + x * y)) (List.range A.mval) 0 = .error .indexOutOfBounds := by
    obtain ⟨rest, hsplit⟩ := range_decomp A.mval B.n hn
    rw [hsplit]
    apply accumulate_err _ _ (List.range B.n) B.n rest
    · intro acc k hk
      rw [List.mem_range] at hk
      exact ⟨acc + A.entry 0 k * B.entry k 0, by
        rw [A.getAt_ok hA0 (by omega), ok_bind, B.getAt_ok (by omega) hm, ok_bind,
          pure_eq_ok]⟩
    · intro acc
      rw [A.getAt_ok hA0 hn, ok_bind, B.getAt_err (Or.inl (Nat.le_refl B.n)), err_bind]
  have hrow0 : (do
      let bm ← B.m
      collect (fun j => accumulate (fun acc k => do
        let x ← A.getAt 0 k
        let y ← B.getAt k j
        pure (acc + x * y)) (List.range A.mval) 0) (List.range bm) : Except Err (List ℚ)) =
      .error .indexOutOfBounds := by
    rw [Matrix.m_ok B hB.1, ok_bind]
    obtain ⟨rest2, hsplit2⟩ := range_decomp B.mval 0 hm
    rw [hsplit2, List.range_zero]
    exact collect_err _ _ [] 0 rest2 (by intro i hi; cases hi) haccErr
  show (collect _ (List.range A.n) >>= fun rows => Matrix.ofArray rows) = _
  obtain ⟨rest3, hsplit3⟩ := range_decomp A.n 0 hA0
  rw [hsplit3, List.range_zero,
    collect_err _ _ [] 0 rest3 (by intro i hi; cases hi) hrow0, err_bind]

/-! ## Claim theorems -/

/-- C1 (code_bug evidence): the two-argument constructor `Matrix(n, value)`
fills the matrix with 0, not with `value` — evaluated at the failing input
`n = 2`, `value = 5`, contradicting its own documentation comment
("all elements set to `value`"). -/
theorem ofSize_fill_value_ignored :
    (Matrix.ofSize 2 5).rows = [[0, 0], [0, 0]] ∧
    (Matrix.ofSize 2 5).rows ≠ [[5, 5], [5, 5]] := by
  decide

/-- C2 counterexample: `Vector.add` performs no dimension check, so the
claim's own example — adding a dimension-2 vector to a dimension-3 vector —
succeeds instead of failing with a `DimensionMismatch` error. -/
theorem add_longer_succeeds_counterexample :
    Vector.dimension ⟨[3, 4, 5]⟩ ≠ Vector.dimension ⟨[1, 2]⟩ ∧
    Vector.add ⟨[1, 2]⟩ ⟨[3, 4, 5]⟩ = .ok ⟨[4, 6]⟩ := by
  refine ⟨by decide, ?_⟩
  norm_num [Vector.add, mapIdxGo, Vector.getAt, Vector.checkBounds, Vector.dimension,
    ok_bind, err_bind, pure_eq_ok]

/-- C2 (amended): `v.add(w)` fails — with `IndexOutOfBounds`, not
`DimensionMismatch` — exactly when `w.dimension < v.dimension`; when
`w.dimension ≥ v.dimension` (including every mismatch with a longer `w`)
it succeeds. -/
theorem add_mismatch_oob (v w : Vector) :
    (w.dimension < v.dimension → v.add w = .error Err.indexOutOfBounds) ∧
    (v.dimension ≤ w.dimension → ∃ u, v.add w = .ok u) := by
  constructor
  · intro h
    exact add_err_of_lt v w h
  · intro h
    obtain ⟨u, hu, _, _⟩ := add_ok_of_le v w h
    exact ⟨u, hu⟩

/-- Witness for C2's amended theorem at concrete inputs. -/
theorem add_mismatch_oob_witness :
    Vector.add ⟨[1, 2, 3]⟩ ⟨[4, 5]⟩ = .error Err.indexOutOfBounds ∧
    ∃ u, Vector.add ⟨[1, 2]⟩ ⟨[3, 4, 5]⟩ = .ok u :=
  ⟨(add_mismatch_oob ⟨[1, 2, 3]⟩ ⟨[4, 5]⟩).1 (by decide),
   (add_mismatch_oob ⟨[1, 2]⟩ ⟨[3, 4, 5]⟩).2 (by decide)⟩

/-- C3: for valid matrices with `A.m = B.n`, `matrixMultiplication` succeeds
and returns the `A.n`×`B.m` matrix whose cell `(i, j)` is the sum over
`k < A.m` of `A[i][k] * B[k][j]`, accumulated in increasing `k` (stated as the
left fold over `List.range A.m`, the source's loop order). -/
theorem matrixMultiplication_spec (A B : Matrix) (hA : A.Valid) (hB : B.Valid)
    (hk : A.mval = B.n) :
    ∃ C, A.matrixMultiplication B = .ok C ∧ C.n = A.n ∧ C.mval = B.mval ∧
      ∀ i j, i < A.n → j < B.mval → C.entry i j =
        (List.range A.mval).foldl (fun acc k => acc + A.entry i k * B.entry k j) 0 :=
  mm_ok_packaged A B hA hB (le_of_eq hk)

/-- Witness for C3 at the spec's end-to-end example
`[[1,2],[3,4]] * [[5,6],[7,8]] = [[19,22],[43,50]]`. -/
theorem matrixMultiplication_spec_witness :
    (∃ C, Matrix.matrixMultiplication ⟨[[1, 2], [3, 4]]⟩ ⟨[[5, 6], [7, 8]]⟩ = .ok C ∧
      C.n = 2 ∧ C.mval = 2 ∧ ∀ i j, i < 2 → j < 2 → C.entry i j =
        (List.range 2).foldl (fun acc k =>
          acc + Matrix.entry ⟨[[1, 2], [3, 4]]⟩ i k * Matrix.entry ⟨[[5, 6], [7, 8]]⟩ k j) 0) ∧
    Matrix.matrixMultiplication ⟨[[1, 2], [3, 4]]⟩ ⟨[[5, 6], [7, 8]]⟩ =
      .ok ⟨[[19, 22], [43, 50]]⟩ := by
  refine ⟨matrixMultiplication_spec ⟨[[1, 2], [3, 4]]⟩ ⟨[[5, 6], [7, 8]]⟩
    (by decide) (by decide) (by decide), ?_⟩
  norm_num [Matrix.matrixMultiplication, collect, accumulate, Matrix.getAt, Matrix.checkBounds,
    Matrix.m, Matrix.mval, Matrix.n, Matrix.ofArray, Matrix.assertValidity,
    ok_bind, err_bind, pure_eq_ok, List.range_succ]

/-- C4: `vectorProduct` fails (with the `NotThreeDimensional` kind) unless both
operands have dimension exactly 3, and on dimension-3 operands returns the
source's literal formula `[a1*b2 - a2*b1, a0*b2 - a2*b0, a0*b1 - a1*b0]`
(middle component not negated). -/
theorem vectorProduct_spec :
    (∀ a b : Vector, ¬(a.dimension = 3 ∧ b.dimension = 3) →
      a.vectorProduct b = .error Err.notThreeDimensional) ∧
    (∀ a b : Vector, a.dimension = 3 → b.dimension = 3 →
      a.vectorProduct b = .ok ⟨[a.entry 1 * b.entry 2 - a.entry 2 * b.entry 1,
        a.entry 0 * b.entry 2 - a.entry 2 * b.entry 0,
        a.entry 0 * b.entry 1 - a.entry 1 * b.entry 0]⟩) := by
  constructor
  · intro a b h
    show (a.assertVectorProductDefined b >>= fun _ => _) = _
    unfold Vector.assertVectorProductDefined
    rw [if_pos (by tauto), err_bind]
  · intro a b ha hb
    obtain ⟨ea⟩ := a
    obtain ⟨eb⟩ := b
    have ha2 : ea.length = 3 := ha
    have hb2 : eb.length = 3 := hb
    obtain ⟨a0, a1, a2, rfl⟩ := List.length_eq_three.1 ha2
    obtain ⟨b0, b1, b2, rfl⟩ := List.length_eq_three.1 hb2
    rfl

/-- Witness for C4: the in-range case at `a = [1,0,0]`, `b = [0,1,0]` yields
`[0, 0, 1]` (per the literal, non-classic-sign formula), and a non-3D pair
fails. -/
theorem vectorProduct_spec_witness :
    Vector.vectorProduct ⟨[1, 0, 0]⟩ ⟨[0, 1, 0]⟩ = .ok ⟨[0, 0, 1]⟩ ∧
    Vector.vectorProduct ⟨[1, 2]⟩ ⟨[3, 4]⟩ = .error Err.notThreeDimensional := by
  constructor
  · have hmain := vectorProduct_spec.2 ⟨[1, 0, 0]⟩ ⟨[0, 1, 0]⟩ (by decide) (by decide)
    rw [hmain]
    norm_num [Vector.entry]
  · exact vectorProduct_spec.1 ⟨[1, 2]⟩ ⟨[3, 4]⟩ (by decide)

/-- C5 counterexample: a valid 1×0 matrix exists (`Matrix([[]])`), and for it
`identity(M.m) = identity(0)` fails (with the `TypeError` of reading the first
row of an empty array) instead of producing an identity matrix. -/
theorem identity_zero_columns_counterexample :
    Matrix.Valid ⟨[([] : List ℚ)]⟩ ∧
    Matrix.identity (Matrix.mval ⟨[([] : List ℚ)]⟩) = .error Err.typeError :=
  ⟨by decide, rfl⟩

/-- C5 (amended): for every valid matrix `M` with at least one column,
`identity(M.m)` is the `M.m`×`M.m` matrix with 1 on the diagonal and 0
elsewhere, and `M.matrixMultiplication(identity(M.m)) = M`. -/
theorem identity_mult_spec (M : Matrix) (hM : M.Valid) (hm : 0 < M.mval) :
    ∃ I, Matrix.identity M.mval = .ok I ∧ I.n = M.mval ∧ I.mval = M.mval ∧
      (∀ i j, i < M.mval → j < M.mval → I.entry i j = if i = j then 1 else 0) ∧
      M.matrixMultiplication I = .ok M := by
  obtain ⟨I, hI, hIvalid, hIn, hIm, hIent⟩ := Matrix.identity_ok M.mval hm
  refine ⟨I, hI, hIn, hIm, hIent, ?_⟩
  have hcell : ∀ i ∈ List.range M.n, ∀ j ∈ List.range M.mval,
      (List.range M.mval).foldl (fun acc k => acc + M.entry i k * I.entry k j) 0 =
        M.entry i j := by
    intro i hi j hj
    rw [List.mem_range] at hj
    rw [foldl_add_eq_sum]
    have hmap : (List.range M.mval).map (fun k => M.entry i k * I.entry k j) =
        (List.range M.mval).map (fun k => if k = j then M.entry i j else 0) := by
      apply List.map_congr_left
      intro k hk
      rw [List.mem_range] at hk
      rw [hIent k j hk hj]
      by_cases hkj : k = j
      · subst hkj
        rw [if_pos rfl, if_pos rfl, mul_one]
      · rw [if_neg hkj, if_neg hkj, mul_zero]
    rw [hmap, sum_map_range_ite _ _ _ hj, zero_add]
  have hrows : (List.range M.n).map (fun i => (List.range I.mval).map (fun j =>
      (List.range M.mval).foldl (fun acc k => acc + M.entry i k * I.entry k j) 0)) =
      M.rows := by
    rw [hIm]
    calc (List.range M.n).map (fun i => (List.range M.mval).map (fun j =>
          (List.range M.mval).foldl (fun acc k => acc + M.entry i k * I.entry k j) 0))
        = (List.range M.n).map (fun i => (List.range M.mval).map (fun j => M.entry i j)) := by
          apply List.map_congr_left
          intro i hi
          apply List.map_congr_left
          intro j hj
          exact hcell i hi j hj
      _ = M.rows := M.rows_reconstruct hM
  rw [Matrix.mm_ok M I hM hIvalid (by omega), hrows]

/-- Witness for C5's amended theorem at `M = [[1,2],[3,4]]`. -/
theorem identity_mult_spec_witness :
    ∃ I, Matrix.identity 2 = .ok I ∧ I.n = 2 ∧ I.mval = 2 ∧
      (∀ i j, i < 2 → j < 2 → I.entry i j = if i = j then 1 else 0) ∧
      Matrix.matrixMultiplication ⟨[[1, 2], [3, 4]]⟩ I = .ok ⟨[[1, 2], [3, 4]]⟩ :=
  identity_mult_spec ⟨[[1, 2], [3, 4]]⟩ (by decide) (by decide)

/-- C6 counterexample: a valid 1×0 matrix exists (`Matrix([[]])`), and its
transpose fails (the rebuilt 0-row array trips the validating constructor's
`TypeError`) instead of succeeding. -/
theorem transpose_zero_columns_counterexample :
    Matrix.Valid ⟨[([] : List ℚ)]⟩ ∧
    Matrix.transpose ⟨[([] : List ℚ)]⟩ = .error Err.typeError :=
  ⟨by decide, rfl⟩

/-- C6 (amended): for every valid matrix `M` of shape `n`×`m` with `m ≥ 1`,
`transpose` succeeds with the `m`×`n` matrix satisfying
`result[j][i] = M[i][j]`, and transposing twice gives back `M`. -/
theorem transpose_spec (A : Matrix) (hA : A.Valid) (hm : 0 < A.mval) :
    ∃ T, A.transpose = .ok T ∧ T.n = A.mval ∧ T.mval = A.n ∧
      (∀ i j, i < A.n → j < A.mval → T.entry j i = A.entry i j) ∧
      T.transpose = .ok A := by
  set T : Matrix := ⟨(List.range A.mval).map (fun j =>
    (List.range A.n).map (fun i => A.entry i j))⟩ with hT
  have hTn : T.n = A.mval := by
    rw [hT]
    show ((List.range A.mval).map _).length = A.mval
    simp
  have hTm : T.mval = A.n := by
    rw [hT]
    show (((List.range A.mval).map _).headD []).length = A.n
    rw [headD_map_range _ hm]
    simp
  have hTent : ∀ p q, p < A.mval → q < A.n → T.entry p q = A.entry q p := by
    intro p q hp hq
    rw [hT]
    show (((List.range A.mval).map _).getD p []).getD q 0 = _
    rw [getD_map_range _ hp, getD_map_range _ hq]
  have hTvalid : T.Valid := by
    constructor
    · rw [hT]
      exact range_map_ne_nil _ hm
    · intro r hr
      rw [hTm]
      have hr2 : r ∈ (List.range A.mval).map (fun j =>
          (List.range A.n).map (fun i => A.entry i j)) := hr
      rw [List.mem_map] at hr2
      obtain ⟨j, _, rfl⟩ := hr2
      simp
  refine ⟨T, Matrix.transpose_ok A hA hm, hTn, hTm,
    fun i j hi hj => hTent j i hj hi, ?_⟩
  have hTmpos : 0 < T.mval := by
    rw [hTm]
    exact A.valid_n_pos hA
  have hrows : (List.range T.mval).map (fun j2 => (List.range T.n).map (fun i2 =>
      T.entry i2 j2)) = A.rows := by
    rw [hTm, hTn]
    calc (List.range A.n).map (fun j2 => (List.range A.mval).map (fun i2 => T.entry i2 j2))
        = (List.range A.n).map (fun j2 => (List.range A.mval).map (fun i2 =>
            A.entry j2 i2)) := by
          apply List.map_congr_left
          intro j2 hj2
          rw [List.mem_range] at hj2
          apply List.map_congr_left
          intro i2 hi2
          rw [List.mem_range] at hi2
          exact hTent i2 j2 hi2 hj2
      _ = A.rows := A.rows_reconstruct hA
  rw [Matrix.transpose_ok T hTvalid hTmpos, hrows]

/-- Witness for C6's amended theorem at the non-square matrix
`[[1,2,3],[4,5,6]]`. -/
theorem transpose_spec_witness :
    ∃ T, Matrix.transpose ⟨[[1, 2, 3], [4, 5, 6]]⟩ = .ok T ∧ T.n = 3 ∧ T.mval = 2 ∧
      (∀ i j, i < 2 → j < 3 → T.entry j i = Matrix.entry ⟨[[1, 2, 3], [4, 5, 6]]⟩ i j) ∧
      T.transpose = .ok ⟨[[1, 2, 3], [4, 5, 6]]⟩ :=
  transpose_spec ⟨[[1, 2, 3], [4, 5, 6]]⟩ (by decide) (by decide)

/-- C7: `setMultiple` bounds-checks every index pair before applying any
value: whenever some pair is out of bounds for the receiver's shape, the
whole call fails with `IndexOutOfBounds` (the embedding is pure, so the
original matrix is untouched and no partially-updated matrix is ever
produced — no `.ok` result exists). -/
theorem setMultiple_oob_spec (A : Matrix) (values : List ℚ) (indices : List (Nat × Nat))
    (h : ∃ p ∈ indices, A.n ≤ p.1 ∨ A.mval ≤ p.2) :
    A.setMultiple values indices = .error Err.indexOutOfBounds := by
  show (tryAll (fun p => A.checkBounds p.1 p.2) indices >>= fun _ =>
    (applyValues indices A.rows values 0 >>= fun arr => Matrix.ofArray arr)) = _
  rw [tryAll_err _ Err.indexOutOfBounds indices
    (fun p _ => A.checkBounds_cases p.1 p.2) ?hex, err_bind]
  case hex =>
    obtain ⟨p, hp, hpo⟩ := h
    exact ⟨p, hp, A.checkBounds_err hpo⟩

/-- Witness for C7 at a concrete out-of-bounds update. -/
theorem setMultiple_oob_spec_witness :
    Matrix.setMultiple ⟨[[1]]⟩ [5] [(2, 0)] = .error Err.indexOutOfBounds :=
  setMultiple_oob_spec ⟨[[1]]⟩ [5] [(2, 0)] ⟨(2, 0), by decide, by decide⟩

/-- C8: the actual mismatch behaviour of `Vector.add` — a longer `w` is
silently truncated (success, result dimension `v.dimension`, elementwise
sums), while a shorter `w` raises `IndexOutOfBounds`, not
`DimensionMismatch`. -/
theorem add_dimension_mismatch_behaviour (v w : Vector) :
    (v.dimension < w.dimension → ∃ u, v.add w = .ok u ∧ u.dimension = v.dimension ∧
      ∀ i, i < v.dimension → u.entry i = v.entry i + w.entry i) ∧
    (w.dimension < v.dimension → v.add w = .error Err.indexOutOfBounds) := by
  constructor
  · intro h
    exact add_ok_of_le v w (by omega)
  · intro h
    exact add_err_of_lt v w h

/-- Witness for C8 in both directions at concrete inputs. -/
theorem add_dimension_mismatch_behaviour_witness :
    (∃ u, Vector.add ⟨[1, 2]⟩ ⟨[3, 4, 5]⟩ = .ok u ∧ u.dimension = 2 ∧
      ∀ i, i < 2 → u.entry i = Vector.entry ⟨[1, 2]⟩ i + Vector.entry ⟨[3, 4, 5]⟩ i) ∧
    Vector.add ⟨[1, 2, 3]⟩ ⟨[4, 5]⟩ = .error Err.indexOutOfBounds :=
  ⟨(add_dimension_mismatch_behaviour ⟨[1, 2]⟩ ⟨[3, 4, 5]⟩).1 (by decide),
   (add_dimension_mismatch_behaviour ⟨[1, 2, 3]⟩ ⟨[4, 5]⟩).2 (by decide)⟩

/-- C9 counterexample: with `A = [[1,2]]` (so `A.m = 2`) and the valid 1×0
matrix `B = [[]]` (so `B.n = 1 < A.m`), the multiplication succeeds (the
`j`-loop is empty, so the out-of-bounds read is never reached) instead of
failing with `IndexOutOfBounds` as claimed. -/
theorem mm_mismatch_counterexample :
    Matrix.Valid ⟨[[(1 : ℚ), 2]]⟩ ∧ Matrix.Valid ⟨[([] : List ℚ)]⟩ ∧
    Matrix.n ⟨[([] : List ℚ)]⟩ < Matrix.mval ⟨[[(1 : ℚ), 2]]⟩ ∧
    Matrix.matrixMultiplication ⟨[[(1 : ℚ), 2]]⟩ ⟨[([] : List ℚ)]⟩ =
      .ok ⟨[([] : List ℚ)]⟩ :=
  ⟨by decide, by decide, by decide, rfl⟩

/-- C9 (amended): for valid matrices, `A.m > B.n` makes `matrixMultiplication`
fail with `IndexOutOfBounds` provided `B` has at least one column (with zero
columns the failing read is never reached and the call succeeds); `A.m < B.n`
makes it succeed with the `A.n`×`B.m` matrix of partial sums over `k < A.m`. -/
theorem mm_mismatch_spec (A B : Matrix) (hA : A.Valid) (hB : B.Valid) :
    (B.n < A.mval → 0 < B.mval → A.matrixMultiplication B = .error Err.indexOutOfBounds) ∧
    (A.mval < B.n → ∃ C, A.matrixMultiplication B = .ok C ∧ C.n = A.n ∧ C.mval = B.mval ∧
      ∀ i j, i < A.n → j < B.mval → C.entry i j =
        (List.range A.mval).foldl (fun acc k => acc + A.entry i k * B.entry k j) 0) :=
  ⟨fun h1 h2 => Matrix.mm_err A B hA hB h1 h2,
   fun h => mm_ok_packaged A B hA hB (le_of_lt h)⟩

/-- Witness for C9's amended theorem: a failing wide product and a succeeding
narrow (partial-sum) product. -/
theorem mm_mismatch_spec_witness :
    Matrix.matrixMultiplication ⟨[[1, 2]]⟩ ⟨[[3]]⟩ = .error Err.indexOutOfBounds ∧
    ∃ C, Matrix.matrixMultiplication ⟨[[1]]⟩ ⟨[[2, 3], [4, 5]]⟩ = .ok C ∧
      C.n = 1 ∧ C.mval = 2 ∧ ∀ i j, i < 1 → j < 2 → C.entry i j =
        (List.range 1).foldl (fun acc k =>
          acc + Matrix.entry ⟨[[1]]⟩ i k * Matrix.entry ⟨[[2, 3], [4, 5]]⟩ k j) 0 :=
  ⟨(mm_mismatch_spec ⟨[[1, 2]]⟩ ⟨[[3]]⟩ (by decide) (by decide)).1 (by decide) (by decide),
   (mm_mismatch_spec ⟨[[1]]⟩ ⟨[[2, 3], [4, 5]]⟩ (by decide) (by decide)).2 (by decide)⟩

/-- C10: the filled constructor with `n = 0` succeeds with a zero-row matrix,
reading `m` of such a matrix fails (the `TypeError` of reading `.length` of a
missing first row), and consequently `identity(0)` fails rather than
returning an empty matrix. -/
theorem empty_matrix_spec :
    (∀ v : ℚ, Matrix.ofSize 0 v = ⟨[]⟩ ∧ (Matrix.ofSize 0 v).n = 0) ∧
    Matrix.m ⟨[]⟩ = .error Err.typeError ∧
    Matrix.identity 0 = .error Err.typeError :=
  ⟨fun v => ⟨rfl, rfl⟩, rfl, rfl⟩

/-- Witness for C10 with the fill value instantiated at 5. -/
theorem empty_matrix_spec_witness :
    (Matrix.ofSize 0 5 = ⟨[]⟩ ∧ (Matrix.ofSize 0 5).n = 0) ∧
    Matrix.m ⟨[]⟩ = .error Err.typeError ∧
    Matrix.identity 0 = .error Err.typeError :=
  ⟨empty_matrix_spec.1 5, empty_matrix_spec.2⟩

end LinAlg
